import Mathlib

/-!
Shallow embedding of `src/Args.hpp` (class `Args`): a command-line argument
registration and parsing engine.  C++ `std::string`s are modelled as Lean
`String`s (separator characters as `Char`), the parallel `std::vector`
fields of the class as parallel `List`s, and the mutable object as an
explicit `ArgsState` threaded through the functions.  C++ exceptions
(`Args::Exception`) and undefined behaviour (out-of-bounds vector access,
`dynamic_cast` null dereference) are modelled by `Option`: `none` means the
call throws or crashes.  The heap-allocated `Args::Error` objects are
modelled by the inductive `ArgError`; the in-place `addCount` mutation
becomes `List.set` at the record's position.
-/

/-- The four `Args::Error` subclasses (`Error::Type` tags
`UNRECOGNIZED_ARG`, `NO_VALUE_FOR_KEY`, `REDEFINITION_OF_KEY`,
`REDEFINITION_OF_UNARY_ARG`).  The two redefinition variants carry the
`_count` field, which starts at 2 in the C++ constructors. -/
inductive ArgError where
  | unrecognizedArg (arg : String)
  | noValueForKey (key : String)
  | redefinitionOfKey (key : String) (count : Nat)
  | redefinitionOfUnaryArg (name : String) (count : Nat)
deriving Repr, DecidableEq

/-- The state of an `Args` object: its private fields `_seps`, `_exec_name`,
the three unary-argument vectors, the four keyword-argument vectors, the
`_errors` vector and `_redefinition_is_error`. -/
structure ArgsState where
  seps : List Char
  exec_name : String
  unary_args : List String
  unary_arg_abbrs : List String
  unary_args_defined : List Bool
  keyword_args : List String
  keyword_arg_abbrs : List String
  keyword_args_defined : List Bool
  keyword_arg_values : List String
  errors : List ArgError
  redefinition_is_error : Bool
deriving Repr, DecidableEq

/-- The default constructor `Args() : _seps("="), _redefinition_is_error(true)`. -/
def argsInit : ArgsState :=
  { seps := ['=']
    exec_name := ""
    unary_args := []
    unary_arg_abbrs := []
    unary_args_defined := []
    keyword_args := []
    keyword_arg_abbrs := []
    keyword_args_defined := []
    keyword_arg_values := []
    errors := []
    redefinition_is_error := true }

/-- `arg.substr(0, arg.find(c))` / `arg.substr(arg.find(c)+1)`: split a
character list at the first occurrence of `c`, returning the prefix before
it and the suffix after it, or `none` when `c` does not occur
(`find == npos`). -/
def splitFirst : List Char → Char → Option (List Char × List Char)
  | [], _ => none
  | x :: xs, c =>
    if x == c then some ([], xs)
    else
      match splitFirst xs c with
      | some (k, v) => some (x :: k, v)
      | none => none

/-- The separator scan of `processArgs` (the `for ci` loop over `_seps`):
try each separator character in configured order; the first one that occurs
anywhere in the token wins, and the token is split at that character's
first occurrence. -/
def sepSplit : List Char → String → Option (String × String)
  | [], _ => none
  | c :: cs, arg =>
    match splitFirst arg.toList c with
    | some (k, v) => some (String.mk k, String.mk v)
    | none => sepSplit cs arg

/-- The matching loops of `processArgs`
(`_keyword_args[i] == s || _keyword_arg_abbrs[i] == s`, and likewise for
unary arguments): index of the first spec whose name or abbreviation
equals the probe.  The loop is bounded by the name list; a missing
abbreviation entry never arises in states built by registration. -/
def findMatchIdx : List String → List String → String → Option Nat
  | [], _, _ => none
  | _ :: _, [], _ => none
  | n :: ns, a :: as, t =>
    if n == t || a == t then some 0
    else (findMatchIdx ns as t).map (· + 1)

/-- The redefinition bookkeeping of the inline `key=value` branch
(`processArgs`, correct `_errors[ei]` version): scan the error vector for
the first `REDEFINITION_OF_KEY` record whose key equals the canonical
name; increment its count in place if found, otherwise append a fresh
record with count 2. -/
def bumpRedefKey (key : String) : List ArgError → List ArgError
  | [] => [.redefinitionOfKey key 2]
  | .redefinitionOfKey k c :: es =>
    if k == key then .redefinitionOfKey k (c + 1) :: es
    else .redefinitionOfKey k c :: bumpRedefKey key es
  | e :: es => e :: bumpRedefKey key es

/-- The redefinition bookkeeping of the unary branch of `processArgs`
(correct `_errors[ei]` version), for `REDEFINITION_OF_UNARY_ARG` records. -/
def bumpRedefUnary (name : String) : List ArgError → List ArgError
  | [] => [.redefinitionOfUnaryArg name 2]
  | .redefinitionOfUnaryArg n c :: es =>
    if n == name then .redefinitionOfUnaryArg n (c + 1) :: es
    else .redefinitionOfUnaryArg n c :: bumpRedefUnary name es
  | e :: es => e :: bumpRedefUnary name es

/-- The `ei` scan of the two-token keyword branch of `processArgs`, which —
unlike the inline branch — casts `_errors[i]` (the keyword-spec index)
instead of `_errors[ei]` (the loop index).  The scan walks the suffix of
the error vector starting at position `ei` (only the type tag at `ei` is
inspected, so the suffix carries all the loop needs): for each entry whose
type is `REDEFINITION_OF_KEY` it dereferences `errors[i]`; if `i` is out
of bounds or `errors[i]` is not a `RedefinitionOfKey`, the indexing /
`dynamic_cast` dereference is undefined behaviour (`none`); if its key
equals the canonical name, the record at position `i` is incremented and
the loop breaks; otherwise the scan continues, and when it falls off the
end a fresh record with count 2 is appended. -/
def buggyScanLoop (errors : List ArgError) (i : Nat) (name : String) :
    List ArgError → Option (List ArgError)
  | [] => some (errors ++ [.redefinitionOfKey name 2])
  | e :: es =>
    match e with
    | .redefinitionOfKey _ _ =>
      match errors[i]? with
      | some (.redefinitionOfKey k c) =>
        if k == name then some (errors.set i (.redefinitionOfKey k (c + 1)))
        else buggyScanLoop errors i name es
      | some _ => none
      | none => none
    | _ => buggyScanLoop errors i name es

/-- The full buggy bookkeeping of the two-token keyword branch: the `ei`
loop started at `ei = 0`, i.e. scanning the whole error vector. -/
def redefKeyLookupBuggy (errors : List ArgError) (i : Nat) (name : String) :
    Option (List ArgError) :=
  buggyScanLoop errors i name errors

/-- The main loop of `processArgs` over the tokens after the executable
name, one iteration per `argloop` pass:

1. if the token contains a separator character, split it and try the
   keyword specs; on a match do the redefinition bookkeeping and overwrite
   the stored value, otherwise record `UnrecognizedArg`;
2. otherwise try the unary specs;
3. otherwise try the keyword specs in two-token form: with no following
   token record `NoValueForKey` and return at once, else do the (buggy)
   bookkeeping, store the following token as value and advance two tokens;
4. otherwise record `UnrecognizedArg`. -/
def processList (s : ArgsState) : List String → Option ArgsState
  | [] => some s
  | arg :: rest =>
    match sepSplit s.seps arg with
    | some (kw, v) =>
      match findMatchIdx s.keyword_args s.keyword_arg_abbrs kw with
      | some i =>
        let s1 :=
          if s.keyword_args_defined.getD i false then
            if s.redefinition_is_error then
              { s with errors := bumpRedefKey (s.keyword_args.getD i "") s.errors }
            else s
          else { s with keyword_args_defined := s.keyword_args_defined.set i true }
        processList { s1 with keyword_arg_values := s1.keyword_arg_values.set i v } rest
      | none =>
        processList { s with errors := s.errors ++ [.unrecognizedArg arg] } rest
    | none =>
      match findMatchIdx s.unary_args s.unary_arg_abbrs arg with
      | some i =>
        let s1 :=
          if s.unary_args_defined.getD i false then
            if s.redefinition_is_error then
              { s with errors := bumpRedefUnary (s.unary_args.getD i "") s.errors }
            else s
          else { s with unary_args_defined := s.unary_args_defined.set i true }
        processList s1 rest
      | none =>
        match findMatchIdx s.keyword_args s.keyword_arg_abbrs arg with
        | some i =>
          match rest with
          | [] => some { s with errors := s.errors ++ [.noValueForKey arg] }
          | v :: rest2 =>
            match
              (if s.keyword_args_defined.getD i false then
                if s.redefinition_is_error then
                  (redefKeyLookupBuggy s.errors i (s.keyword_args.getD i "")).map
                    (fun es => { s with errors := es })
                else some s
              else some { s with keyword_args_defined := s.keyword_args_defined.set i true }) with
            | none => none
            | some s1 =>
              processList { s1 with keyword_arg_values := s1.keyword_arg_values.set i v } rest2
        | none =>
          processList { s with errors := s.errors ++ [.unrecognizedArg arg] } rest

/-- `Args::processArgs(argc, argv)`: return unchanged when `argc <= 0`,
otherwise capture `argv[0]` as `_exec_name` and run the token loop over
the remaining arguments. -/
def processArgs (s : ArgsState) (argv : List String) : Option ArgsState :=
  match argv with
  | [] => some s
  | exec :: rest => processList { s with exec_name := exec } rest

/-- The lookup loop shared by the accessors (`valueForKeywordArg`,
`keywordArgDefined`, `unaryArgDefined`): walk the name vector and the
parallel payload vector together and return the payload of the first
matching name; `none` models the `Exception` thrown when the loop ends
without a match. -/
def lookupByName {α : Type} : List String → List α → String → Option α
  | [], _, _ => none
  | _ :: _, [], _ => none
  | n :: ns, v :: vs, k => if n == k then some v else lookupByName ns vs k

/-- `Args::valueForKeywordArg`: value of the first keyword spec whose
*name* (not abbreviation) equals the probe; `none` models the
`Cannot retrieve value ... no such keyword argument` exception. -/
def valueForKeywordArg (s : ArgsState) (k : String) : Option String :=
  lookupByName s.keyword_args s.keyword_arg_values k

/-- `Args::keywordArgDefined`: defined flag of the first keyword spec whose
name equals the probe; `none` models the `No such keyword argument`
exception. -/
def keywordArgDefined (s : ArgsState) (k : String) : Option Bool :=
  lookupByName s.keyword_args s.keyword_args_defined k

/-- `Args::unaryArgDefined`. -/
def unaryArgDefined (s : ArgsState) (k : String) : Option Bool :=
  lookupByName s.unary_args s.unary_args_defined k

/-- `Args::hasKeywordArg`: whether some keyword spec's name equals the probe. -/
def hasKeywordArg (s : ArgsState) (k : String) : Bool :=
  s.keyword_args.any (· == k)

/-- The duplicate checks shared by `addKeywordArg` and `addUnaryArg`
against one family of specs: the new name against every existing name and
abbreviation, and (when given) the new abbreviation against every existing
name and abbreviation.  Any hit throws in the C++. -/
def collides (names abbrs : List String) (name : String)
    (abbr : Option String) : Bool :=
  names.any (· == name) || abbrs.any (· == name) ||
    (match abbr with
     | some a => names.any (· == a) || abbrs.any (· == a)
     | none => false)

/-- `Args::addKeywordArg(keyword_arg, abbr)`: reject collisions with
existing keyword specs, then with existing unary specs, then reject a
*name* containing a separator character (the loop over `_seps` checks only
`keyword_arg_str`, not the abbreviation), then append to the four keyword
vectors (a missing abbreviation is stored as the empty string, the defined
flag as `false`, the value as `""`). -/
def addKeywordArg (s : ArgsState) (name : String) (abbr : Option String) :
    Option ArgsState :=
  if collides s.keyword_args s.keyword_arg_abbrs name abbr then none
  else if collides s.unary_args s.unary_arg_abbrs name abbr then none
  else if s.seps.any (fun c => name.toList.contains c) then none
  else some { s with
    keyword_args := s.keyword_args ++ [name]
    keyword_arg_abbrs := s.keyword_arg_abbrs ++ [abbr.getD ""]
    keyword_args_defined := s.keyword_args_defined ++ [false]
    keyword_arg_values := s.keyword_arg_values ++ [""] }

/-- `Args::addUnaryArg(unary_arg, abbr)`: reject collisions with existing
unary specs, then with existing keyword specs, then reject a *name*
containing a separator character (again only `unary_arg_str` is checked),
then append to the three unary vectors. -/
def addUnaryArg (s : ArgsState) (name : String) (abbr : Option String) :
    Option ArgsState :=
  if collides s.unary_args s.unary_arg_abbrs name abbr then none
  else if collides s.keyword_args s.keyword_arg_abbrs name abbr then none
  else if s.seps.any (fun c => name.toList.contains c) then none
  else some { s with
    unary_args := s.unary_args ++ [name]
    unary_arg_abbrs := s.unary_arg_abbrs ++ [abbr.getD ""]
    unary_args_defined := s.unary_args_defined ++ [false] }

/-- The validation loop of `Args::setSepString`: for each character of the
*current* field `_seps` (not of the new `sep_string` — this is the slip
under scrutiny), check every unary name, unary abbreviation, keyword name
and keyword abbreviation for an occurrence; any hit throws. -/
def sepConflicts (s : ArgsState) : Bool :=
  s.seps.any fun c =>
    (s.unary_args.any fun n => n.toList.contains c) ||
    (s.unary_arg_abbrs.any fun a => a.toList.contains c) ||
    (s.keyword_args.any fun n => n.toList.contains c) ||
    (s.keyword_arg_abbrs.any fun a => a.toList.contains c)

/-- `Args::setSepString(sep_string)`: run the validation loop (which, as in
the source, iterates over the old `_seps`), then assign the new separator
string. -/
def setSepString (s : ArgsState) (sep_string : List Char) : Option ArgsState :=
  if sepConflicts s then none else some { s with seps := sep_string }

/-- Modelled from the spec for comparison in claim C4 only (not from the
source): split the token at the earliest (separator, position) pair — the
smallest position in the token holding any character of the separator set —
into the prefix before it and the suffix after it. -/
def specEarliestSplit (seps : List Char) (arg : String) : Option (String × String) :=
  match arg.toList.findIdx? (fun c => seps.contains c) with
  | some j => some (String.mk (arg.toList.take j), String.mk (arg.toList.drop (j + 1)))
  | none => none

/-- The configuration fields of an `Args` object that make up the
Specification Registry: separator set, unary names and abbreviations,
keyword names and abbreviations, and the redefinition-strictness flag —
everything except the per-parse outcome state (`_exec_name`, defined
flags, values, errors). -/
def registryFields (s : ArgsState) :
    List Char × List String × List String × List String × List String × Bool :=
  (s.seps, s.unary_args, s.unary_arg_abbrs, s.keyword_args, s.keyword_arg_abbrs,
   s.redefinition_is_error)

/-- The keyword value vectors are aligned with the defined flags, and every
keyword spec whose defined flag is (still) false has the empty string as
its stored value — exactly the shape `addKeywordArg` establishes
(`push_back(false)` / `push_back("")`). -/
def KwValueInvariant (s : ArgsState) : Prop :=
  s.keyword_args_defined.length = s.keyword_arg_values.length ∧
  ∀ j, s.keyword_args_defined.getD j false = false →
    s.keyword_arg_values.getD j "" = ""

/-- Fixture: a registry with the single keyword argument `--out`. -/
def regOut : ArgsState := { argsInit with
  keyword_args := ["--out"], keyword_arg_abbrs := [""],
  keyword_args_defined := [false], keyword_arg_values := [""] }

/-- Fixture: a registry with the single keyword argument `--a`. -/
def regA : ArgsState := { argsInit with
  keyword_args := ["--a"], keyword_arg_abbrs := [""],
  keyword_args_defined := [false], keyword_arg_values := [""] }

/-- Fixture: a registry with the two keyword arguments `--a` and `--b`. -/
def regAB : ArgsState := { argsInit with
  keyword_args := ["--a", "--b"], keyword_arg_abbrs := ["", ""],
  keyword_args_defined := [false, false], keyword_arg_values := ["", ""] }

/-- Fixture: a registry with the single unary argument `--verbose`. -/
def regVerb : ArgsState := { argsInit with
  unary_args := ["--verbose"], unary_arg_abbrs := [""],
  unary_args_defined := [false] }

/-- Fixture: a registry with the single unary argument `--v`. -/
def regV : ArgsState := { argsInit with
  unary_args := ["--v"], unary_arg_abbrs := [""], unary_args_defined := [false] }

/-- Fixture: a registry with keyword argument `a` and separator set `=:`
(reachable by registering `a` under the default separator `=` and then
calling `setSepString("=:")`, which the validation slip accepts). -/
def regColon : ArgsState := { argsInit with
  seps := ['=', ':'],
  keyword_args := ["a"], keyword_arg_abbrs := [""],
  keyword_args_defined := [false], keyword_arg_values := [""] }

/-- Overwriting the stored value at a position whose defined flag is `true`
keeps the undefined-means-empty invariant on the value vector. -/
lemma kwInv_overwrite_defined (defs : List Bool) (vals : List String) (i : Nat) (v : String)
    (hd : defs.getD i false = true)
    (hinv : ∀ j, defs.getD j false = false → vals.getD j "" = "") :
    ∀ j, defs.getD j false = false → (vals.set i v).getD j "" = "" := by
  intro j hj
  rcases eq_or_ne i j with rfl | hne
  · rw [hd] at hj; cases hj
  · rw [List.getD_eq_getElem?_getD, List.getElem?_set_ne hne, ← List.getD_eq_getElem?_getD]
    exact hinv j hj

/-- Setting the defined flag at `i` to `true` while writing the value at
`i` keeps the undefined-means-empty invariant. -/
lemma kwInv_overwrite_fresh (defs : List Bool) (vals : List String) (i : Nat) (v : String)
    (hlen : defs.length = vals.length)
    (hinv : ∀ j, defs.getD j false = false → vals.getD j "" = "") :
    ∀ j, (defs.set i true).getD j false = false → (vals.set i v).getD j "" = "" := by
  intro j hj
  rcases eq_or_ne i j with rfl | hne
  · rw [List.getD_eq_getElem?_getD, List.getElem?_set] at hj
    simp only [if_pos rfl] at hj
    by_cases hlt : i < defs.length
    · rw [if_pos hlt] at hj; cases hj
    · rw [List.getD_eq_getElem?_getD, List.getElem?_set]
      simp only [if_pos rfl, hlen ▸ hlt, if_neg (hlen ▸ hlt)]
      rfl
  · rw [List.getD_eq_getElem?_getD, List.getElem?_set_ne hne, ← List.getD_eq_getElem?_getD] at hj
    rw [List.getD_eq_getElem?_getD, List.getElem?_set_ne hne, ← List.getD_eq_getElem?_getD]
    exact hinv j hj

/-- Main loop invariant: a completed run of the token loop leaves every
registry field untouched and preserves the undefined-means-empty value
invariant. -/
lemma processList_main (n : Nat) :
    ∀ (l : List String), l.length ≤ n → ∀ (s s' : ArgsState),
      processList s l = some s' →
      registryFields s' = registryFields s ∧
      (KwValueInvariant s → KwValueInvariant s') := by
  induction n with
  | zero =>
    intro l hl s s' h
    match l with
    | [] =>
      simp only [processList, Option.some.injEq] at h
      subst h; exact ⟨rfl, id⟩
  | succ n ih =>
    intro l hl s s' h
    match l with
    | [] =>
      simp only [processList, Option.some.injEq] at h
      subst h; exact ⟨rfl, id⟩
    | arg :: rest =>
      have hrest : rest.length ≤ n := by
        simp only [List.length_cons] at hl; omega
      simp only [processList] at h
      cases hsep : sepSplit s.seps arg with
      | some kv =>
        obtain ⟨kw, v⟩ := kv
        cases hfind : findMatchIdx s.keyword_args s.keyword_arg_abbrs kw with
        | some i =>
          cases hd : s.keyword_args_defined.getD i false with
          | true =>
            have hd' : s.keyword_args_defined[i]?.getD false = true := by
              rw [← List.getD_eq_getElem?_getD]; exact hd
            cases hr : s.redefinition_is_error with
            | true =>
              simp [hsep, hfind, hd', hr] at h
              obtain ⟨h1, h2⟩ := ih rest hrest _ s' h
              refine ⟨by rw [h1]; all_goals simp [registryFields, hr], fun hv => h2 ?_⟩
              exact ⟨by rw [List.length_set]; exact hv.1,
                     kwInv_overwrite_defined _ _ _ _ hd hv.2⟩
            | false =>
              simp [hsep, hfind, hd', hr] at h
              obtain ⟨h1, h2⟩ := ih rest hrest _ s' h
              refine ⟨by rw [h1]; all_goals simp [registryFields, hr], fun hv => h2 ?_⟩
              exact ⟨by rw [List.length_set]; exact hv.1,
                     kwInv_overwrite_defined _ _ _ _ hd hv.2⟩
          | false =>
            have hd' : s.keyword_args_defined[i]?.getD false = false := by
              rw [← List.getD_eq_getElem?_getD]; exact hd
            simp [hsep, hfind, hd'] at h
            obtain ⟨h1, h2⟩ := ih rest hrest _ s' h
            refine ⟨by rw [h1]; all_goals simp [registryFields], fun hv => h2 ?_⟩
            exact ⟨by rw [List.length_set, List.length_set]; exact hv.1,
                   kwInv_overwrite_fresh _ _ _ _ hv.1 hv.2⟩
        | none =>
          simp [hsep, hfind] at h
          obtain ⟨h1, h2⟩ := ih rest hrest _ s' h
          exact ⟨by rw [h1]; all_goals simp [registryFields], fun hv => h2 hv⟩
      | none =>
        cases hufind : findMatchIdx s.unary_args s.unary_arg_abbrs arg with
        | some i =>
          cases hd : s.unary_args_defined.getD i false with
          | true =>
            have hd' : s.unary_args_defined[i]?.getD false = true := by
              rw [← List.getD_eq_getElem?_getD]; exact hd
            cases hr : s.redefinition_is_error with
            | true =>
              simp [hsep, hufind, hd', hr] at h
              obtain ⟨h1, h2⟩ := ih rest hrest _ s' h
              exact ⟨by rw [h1]; all_goals simp [registryFields, hr], fun hv => h2 hv⟩
            | false =>
              simp [hsep, hufind, hd', hr] at h
              obtain ⟨h1, h2⟩ := ih rest hrest _ s' h
              exact ⟨h1, h2⟩
          | false =>
            have hd' : s.unary_args_defined[i]?.getD false = false := by
              rw [← List.getD_eq_getElem?_getD]; exact hd
            simp [hsep, hufind, hd'] at h
            obtain ⟨h1, h2⟩ := ih rest hrest _ s' h
            exact ⟨by rw [h1]; all_goals simp [registryFields], fun hv => h2 hv⟩
        | none =>
          cases hkfind : findMatchIdx s.keyword_args s.keyword_arg_abbrs arg with
          | some i =>
            match rest, hrest with
            | [], _ =>
              simp only [hsep, hufind, hkfind, Option.some.injEq] at h
              subst h; exact ⟨rfl, fun hv => hv⟩
            | v :: rest2, hrest =>
              have hrest2 : rest2.length ≤ n := by
                simp only [List.length_cons] at hrest ⊢; omega
              cases hd : s.keyword_args_defined.getD i false with
              | true =>
                have hd' : s.keyword_args_defined[i]?.getD false = true := by
                  rw [← List.getD_eq_getElem?_getD]; exact hd
                cases hr : s.redefinition_is_error with
                | true =>
                  cases hbug : redefKeyLookupBuggy s.errors i (s.keyword_args[i]?.getD "") with
                  | none =>
                    simp [hsep, hufind, hkfind, hd', hr, hbug] at h
                  | some es =>
                    simp [hsep, hufind, hkfind, hd', hr, hbug] at h
                    obtain ⟨h1, h2⟩ := ih rest2 hrest2 _ s' h
                    refine ⟨by rw [h1]; all_goals simp [registryFields, hr], fun hv => h2 ?_⟩
                    exact ⟨by rw [List.length_set]; exact hv.1,
                           kwInv_overwrite_defined _ _ _ _ hd hv.2⟩
                | false =>
                  simp [hsep, hufind, hkfind, hd', hr] at h
                  obtain ⟨h1, h2⟩ := ih rest2 hrest2 _ s' h
                  refine ⟨by rw [h1]; all_goals simp [registryFields, hr], fun hv => h2 ?_⟩
                  exact ⟨by rw [List.length_set]; exact hv.1,
                         kwInv_overwrite_defined _ _ _ _ hd hv.2⟩
              | false =>
                have hd' : s.keyword_args_defined[i]?.getD false = false := by
                  rw [← List.getD_eq_getElem?_getD]; exact hd
                simp [hsep, hufind, hkfind, hd'] at h
                obtain ⟨h1, h2⟩ := ih rest2 hrest2 _ s' h
                refine ⟨by rw [h1]; all_goals simp [registryFields], fun hv => h2 ?_⟩
                exact ⟨by rw [List.length_set, List.length_set]; exact hv.1,
                       kwInv_overwrite_fresh _ _ _ _ hv.1 hv.2⟩
          | none =>
            simp [hsep, hufind, hkfind] at h
            obtain ⟨h1, h2⟩ := ih rest hrest _ s' h
            exact ⟨by rw [h1]; all_goals simp [registryFields], fun hv => h2 hv⟩

/-- The accessor lookup returns the empty string for any name whose first
matching entry has defined flag `false`, given the aligned
undefined-means-empty invariant on the parallel vectors. -/
lemma lookupByName_inv : ∀ (names : List String) (defs : List Bool) (vals : List String)
    (k : String),
    defs.length = vals.length →
    (∀ j, defs.getD j false = false → vals.getD j "" = "") →
    lookupByName names defs k = some false →
    lookupByName names vals k = some "" := by
  intro names
  induction names with
  | nil => intro defs vals k _ _ h; simp [lookupByName] at h
  | cons n ns ih =>
    intro defs vals k hlen hinv h
    cases defs with
    | nil => simp [lookupByName] at h
    | cons d ds =>
      cases vals with
      | nil => simp at hlen
      | cons v vs =>
        by_cases hk : n == k
        · simp only [lookupByName, hk, if_true, Option.some.injEq] at h ⊢
          subst h
          have := hinv 0 (by simp [List.getD_cons_zero])
          simpa [List.getD_cons_zero] using this
        · simp only [lookupByName, hk, if_false, Bool.false_eq_true, if_neg] at h ⊢
          exact ih ds vs k (by simpa using hlen)
            (fun j hj => by
              have := hinv (j + 1) (by simpa [List.getD_cons_succ] using hj)
              simpa [List.getD_cons_succ] using this) h

/-- The accessor lookup fails (throws) exactly when no spec name matches. -/
lemma lookupByName_not_found {α : Type} : ∀ (names : List String) (vals : List α)
    (k : String),
    names.any (· == k) = false → lookupByName names vals k = none := by
  intro names
  induction names with
  | nil => intro vals k _; cases vals <;> rfl
  | cons n ns ih =>
    intro vals k h
    simp only [List.any_cons, Bool.or_eq_false_iff] at h
    cases vals with
    | nil => rfl
    | cons v vs =>
      simp only [lookupByName, h.1, Bool.false_eq_true, if_false, if_neg]
      exact ih vs k h.2

/-- `splitFirst` splits at the first occurrence of `c`: the prefix is the
longest `c`-free prefix, the suffix everything after that occurrence. -/
lemma splitFirst_eq (cs : List Char) (c : Char) :
    splitFirst cs c =
      if cs.contains c then some (cs.takeWhile (· != c), (cs.dropWhile (· != c)).tail)
      else none := by
  induction cs with
  | nil => rfl
  | cons x xs ih =>
    by_cases hx : x == c
    · have hxc : x = c := by simpa using hx
      subst hxc
      simp [splitFirst, List.takeWhile_cons, List.dropWhile_cons]
    · have hxne : x ≠ c := by simpa using hx
      by_cases hm : c ∈ xs
      · simp [splitFirst, hx, List.takeWhile_cons, List.dropWhile_cons, ih, hm,
          hxne, Ne.symm hxne, List.mem_cons]
      · simp [splitFirst, hx, ih, hm, hxne, Ne.symm hxne, List.mem_cons]

/-- The token-splitting scan equals: take the first separator character in
configured order that occurs anywhere in the token, and split the token at
that character's first occurrence. -/
lemma sepSplit_eq (seps : List Char) (arg : String) :
    sepSplit seps arg =
      (seps.find? fun c => arg.toList.contains c).map
        (fun c => (String.mk (arg.toList.takeWhile (· != c)),
                   String.mk ((arg.toList.dropWhile (· != c)).tail))) := by
  induction seps with
  | nil => rfl
  | cons c cs ih =>
    by_cases hc : c ∈ arg.data
    · simp [sepSplit, splitFirst_eq, hc, List.find?_cons]
    · simp [sepSplit, splitFirst_eq, hc, List.find?_cons, ih]

/-- C1: the claim says `setSeparators` must fail whenever a registered
spec's name or abbreviation contains a character of the *new* set.  The
code validates the *old* `_seps` instead: with unary argument `a`
registered, `setSepString("a")` succeeds and installs the conflicting
separator set, contradicting the claim. -/
theorem c1_setSepString_silently_accepts_conflict :
    (addUnaryArg argsInit "a" none).bind (fun s => setSepString s ['a']) =
      some { argsInit with
             unary_args := ["a"]
             unary_arg_abbrs := [""]
             unary_args_defined := [false]
             seps := ['a'] } ∧
    "a".toList.contains 'a' = true :=
  ⟨rfl, rfl⟩

/-- C2: the two-token redefinition bookkeeping casts `_errors[i]` instead
of `_errors[ei]`, so three two-token occurrences of `--a` (after an inline
`--b` redefinition occupies error position 0) produce two
`RedefinitionOfKey` records for `--a` with counts 2 and 2 — not one record
with count 3.  The inline bookkeeping applied at the same point would have
incremented the existing `--a` record to 3. -/
theorem c2_two_token_redefinition_duplicates :
    (processArgs regAB
        ["prog", "--b=1", "--b=2", "--a", "x", "--a", "y", "--a", "z"]).map
        ArgsState.errors =
      some [.redefinitionOfKey "--b" 2, .redefinitionOfKey "--a" 2,
            .redefinitionOfKey "--a" 2] ∧
    bumpRedefKey "--a" [.redefinitionOfKey "--b" 2, .redefinitionOfKey "--a" 2] =
      [.redefinitionOfKey "--b" 2, .redefinitionOfKey "--a" 3] :=
  ⟨rfl, rfl⟩

/-- C3 counterexample: the outcome state lives in the same object as the
registry, so a second `processArgs` call with the same registry and the
same input sees the first call's defined flags and reports a spurious
redefinition — the two outcomes' error sequences differ. -/
theorem c3_second_parse_differs :
    ((processArgs regV ["prog", "--v"]).bind fun s1 =>
        processArgs s1 ["prog", "--v"]).map ArgsState.errors ≠
      (processArgs regV ["prog", "--v"]).map ArgsState.errors := by
  decide

/-- C3 amended: every successful parse leaves the registry fields —
separator set, unary and keyword names and abbreviations, and the
redefinition flag — exactly as they were. -/
theorem c3_registry_fields_preserved (s : ArgsState) (argv : List String)
    (s' : ArgsState) (h : processArgs s argv = some s') :
    registryFields s' = registryFields s := by
  cases argv with
  | nil =>
    simp only [processArgs, Option.some.injEq] at h
    subst h; rfl
  | cons exec rest =>
    exact ((processList_main rest.length rest le_rfl _ s' h).1).trans rfl

/-- Witness for C3's amended theorem at a concrete parse. -/
theorem c3_registry_fields_preserved_witness :
    registryFields { regV with exec_name := "prog", unary_args_defined := [true] } =
      registryFields regV :=
  c3_registry_fields_preserved regV ["prog", "--v"] _ rfl

/-- C4 counterexample: with separator set `=:` the token `a:b=c` is split
by the code at `=` (the first separator in configured order that occurs),
giving keyword `a:b`, not at the earliest position (the `:` at index 1,
which would give keyword `a`); consequently the registered keyword `a` is
not matched and the whole token is recorded as unrecognized. -/
theorem c4_configured_order_beats_position :
    sepSplit ['=', ':'] "a:b=c" = some ("a:b", "c") ∧
    specEarliestSplit ['=', ':'] "a:b=c" = some ("a", "b=c") ∧
    sepSplit ['=', ':'] "a:b=c" ≠ specEarliestSplit ['=', ':'] "a:b=c" ∧
    (processArgs regColon ["prog", "a:b=c"]).map
        (fun s => (s.errors, s.keyword_arg_values)) =
      some ([.unrecognizedArg "a:b=c"], [""]) :=
  ⟨rfl, rfl, by decide, rfl⟩

/-- C4 amended: the inline classification splits the token at the first
occurrence of the first separator character in configured order that
occurs anywhere in the token — configured order has priority over
position. -/
theorem c4_first_separator_in_configured_order (seps : List Char) (arg : String) :
    sepSplit seps arg =
      (seps.find? fun c => arg.toList.contains c).map
        (fun c => (String.mk (arg.toList.takeWhile (· != c)),
                   String.mk ((arg.toList.dropWhile (· != c)).tail))) :=
  sepSplit_eq seps arg

/-- C5: registration checks the *name* against the separator set (rejecting
`a=b` and `x=y` as names under the default separator `=`) but never checks
the abbreviation, so `-C` with abbreviation `a=b` and `--out` with
abbreviation `x=y` are accepted, contradicting the claim that such calls
fail. -/
theorem c5_abbreviation_separator_unchecked :
    (addUnaryArg argsInit "-C" (some "a=b")).isSome = true ∧
    addUnaryArg argsInit "a=b" none = none ∧
    (addKeywordArg argsInit "--out" (some "x=y")).isSome = true ∧
    addKeywordArg argsInit "x=y" none = none :=
  ⟨rfl, rfl, rfl, rfl⟩

/-- C6: the example parse yields exactly one `RedefinitionOfKey` with
count 2 and final value `b.txt`; and on every inline keyword match —
first definition or redefinition — the stored value at the matched index
becomes that occurrence's value (last write wins). -/
theorem c6_inline_redefinition_last_write_wins :
    ((processArgs regOut ["prog", "--out=a.txt", "--out=b.txt"]).map
        (fun s => (s.errors, s.keyword_arg_values)) =
      some ([.redefinitionOfKey "--out" 2], ["b.txt"])) ∧
    ∀ (s : ArgsState) (arg kw v : String) (i : Nat),
      sepSplit s.seps arg = some (kw, v) →
      findMatchIdx s.keyword_args s.keyword_arg_abbrs kw = some i →
      i < s.keyword_arg_values.length →
      (processList s [arg]).map (fun t => t.keyword_arg_values.getD i "") = some v := by
  refine ⟨rfl, ?_⟩
  intro s arg kw v i hsep hfind hlt
  simp only [processList, hsep, hfind]
  simp [apply_ite ArgsState.keyword_arg_values, ite_self,
    List.getD_eq_getElem?_getD, List.getElem?_set_self hlt]

/-- Witness for C6's universal clause at a concrete inline match. -/
theorem c6_inline_redefinition_last_write_wins_witness :
    (processList regOut ["--out=xyz"]).map
        (fun t => t.keyword_arg_values.getD 0 "") = some "xyz" :=
  c6_inline_redefinition_last_write_wins.2 regOut "--out=xyz" "--out" "xyz" 0 rfl rfl
    (by decide)

/-- C7: two occurrences of `--verbose` yield one `RedefinitionOfUnaryArg`
record with count 2, three occurrences count 3 — still a single record —
and with a preceding unrecognized token the record keeps the position at
which it was first appended. -/
theorem c7_unary_redefinition_counts :
    (processArgs regVerb ["prog", "--verbose", "--verbose"]).map ArgsState.errors =
      some [.redefinitionOfUnaryArg "--verbose" 2] ∧
    (processArgs regVerb ["prog", "--verbose", "--verbose", "--verbose"]).map
        ArgsState.errors =
      some [.redefinitionOfUnaryArg "--verbose" 3] ∧
    (processArgs regVerb ["prog", "zz", "--verbose", "--verbose", "--verbose"]).map
        ArgsState.errors =
      some [.unrecognizedArg "zz", .redefinitionOfUnaryArg "--verbose" 3] :=
  ⟨rfl, rfl, rfl⟩

/-- C8: the positive part of the claim holds on `["prog", "x", "--out"]` —
`x` is recorded as unrecognized before the terminal `NoValueForKey`, with
`--out` left undefined — but `NoValueForKey` is not the only way the scan
stops early: the third two-token occurrence of `--a` makes the buggy
bookkeeping cast error record 0 (an `UnrecognizedArg`) as a
`RedefinitionOfKey` and dereference the null result, crashing mid-scan. -/
theorem c8_dangling_keyword_terminal_and_crash :
    (processArgs regOut ["prog", "x", "--out"]).map
        (fun s => (s.errors, s.keyword_args_defined)) =
      some ([.unrecognizedArg "x", .noValueForKey "--out"], [false]) ∧
    processArgs regA ["prog", "zzz", "--a", "1", "--a", "2", "--a", "3"] = none :=
  ⟨rfl, rfl⟩

/-- C9: on the third two-token occurrence of `--b` (spec index 1) the buggy
bookkeeping indexes `_errors[1]` in an error vector of length 1 — out of
bounds, modelled as a crash — while the two-occurrence prefix of the same
input parses fine. -/
theorem c9_error_scan_out_of_bounds :
    processArgs regAB ["prog", "--b", "1", "--b", "2", "--b", "3"] = none ∧
    (processArgs regAB ["prog", "--b", "1", "--b", "2"]).map ArgsState.errors =
      some [.redefinitionOfKey "--b" 2] :=
  ⟨rfl, rfl⟩

/-- C10: after any successful parse from a state satisfying the
undefined-means-empty invariant (which registration establishes), the value
accessor returns the empty string for every registered keyword argument
whose defined flag is still false, and fails only for names that were
never registered. -/
theorem c10_undefined_keyword_value_empty (s : ArgsState) (argv : List String)
    (s' : ArgsState) (k : String)
    (hinv : KwValueInvariant s) (h : processArgs s argv = some s') :
    (keywordArgDefined s' k = some false → valueForKeywordArg s' k = some "") ∧
    (hasKeywordArg s' k = false → valueForKeywordArg s' k = none) := by
  have hinv' : KwValueInvariant s' := by
    cases argv with
    | nil =>
      simp only [processArgs, Option.some.injEq] at h
      subst h; exact hinv
    | cons exec rest =>
      exact (processList_main rest.length rest le_rfl _ s' h).2 hinv
  exact ⟨fun hdef => lookupByName_inv s'.keyword_args s'.keyword_args_defined
            s'.keyword_arg_values k hinv'.1 hinv'.2 hdef,
         fun hno => lookupByName_not_found s'.keyword_args s'.keyword_arg_values k hno⟩

/-- Witness for C10 at a concrete parse: `--out` stays undefined and its
value reads back as the empty string, while `--nope` was never registered
and its lookup fails. -/
theorem c10_undefined_keyword_value_empty_witness :
    valueForKeywordArg
      { regOut with exec_name := "prog", errors := [ArgError.unrecognizedArg "w"] }
      "--out" = some "" ∧
    valueForKeywordArg
      { regOut with exec_name := "prog", errors := [ArgError.unrecognizedArg "w"] }
      "--nope" = none := by
  have h1 := c10_undefined_keyword_value_empty regOut ["prog", "w"]
    { regOut with exec_name := "prog", errors := [ArgError.unrecognizedArg "w"] } "--out"
    ⟨rfl, fun j hj => by cases j <;> rfl⟩ rfl
  have h2 := c10_undefined_keyword_value_empty regOut ["prog", "w"]
    { regOut with exec_name := "prog", errors := [ArgError.unrecognizedArg "w"] } "--nope"
    ⟨rfl, fun j hj => by cases j <;> rfl⟩ rfl
  exact ⟨h1.1 rfl, h2.2 rfl⟩
